import Mathlib

/-!
Verification development for the RxJS teaching socket server
(`rxjs-socket-server.js` and `rxjs-demo-routes.js`).

The engine is embedded as a small-step state machine:

* `Engine` mirrors the `RxJSSocketServer` instance: the `activeStreams`
  and `streamConfigs` maps, the per-stream closure variables created by
  `startStream` (`startTime`, `emissionCount`, `lastEmittedData`), the
  set of live `setInterval` handles, and the queue of pending `setTimeout`
  callbacks (burst-staggered emission attempts and delayed fresh
  broadcasts).
* `emitData` is the per-attempt function of the source, branch for
  branch: duration check, error injection, duplicate injection, fresh
  emission (which only schedules the broadcast; `emissionCount` is
  incremented when the scheduled callback runs, as in the source).
* `Step` enumerates the events the JavaScript event loop can deliver:
  a `start-stream` command, a `stop-stream` command, an interval firing,
  and a pending `setTimeout` callback running.  `execStep`/`execTrace`
  run them.  Timer identities are modelled by the lineage counter
  `nextLineage`; `clearInterval` removes a lineage from `liveIntervals`
  but, as in the source, never removes already-scheduled `setTimeout`
  tasks.

Randomness is passed in explicitly: `TickRand` carries the draws one
call of `emitData` can consume (`Math.random() * 100` for the error and
duplicate checks, the delay draw, and the generator draws).
-/

namespace RxSrv

/-- Association-list lookup, first binding wins (JavaScript `Map.get`). -/
def mget {κ α : Type} [DecidableEq κ] : List (κ × α) → κ → Option α
  | [], _ => none
  | (k', v) :: rest, k => if k' = k then some v else mget rest k

/-- Remove every binding of a key (JavaScript `Map.delete`). -/
def mdel {κ α : Type} [DecidableEq κ] : List (κ × α) → κ → List (κ × α)
  | [], _ => []
  | (k', v) :: rest, k => if k' = k then mdel rest k else (k', v) :: mdel rest k

/-- Insert or replace a binding (JavaScript `Map.set`). -/
def mset {κ α : Type} [DecidableEq κ] (m : List (κ × α)) (k : κ) (v : α) : List (κ × α) :=
  (k, v) :: mdel m k

/-- The destructured configuration of `startStream`, with the source's
default values. -/
structure StreamCfg where
  streamName : String := "books"
  interval : ℤ := 3000
  duration : ℤ := 120000
  errorRate : ℚ := 0
  duplicateRate : ℚ := 0
  delayVariation : ℤ := 0
  burstMode : Bool := false
  burstSize : Nat := 3
  burstInterval : ℤ := 10000
deriving DecidableEq, Repr

/-- The random draws one emission attempt may consume.  `errDraw` and
`dupDraw` stand for `Math.random() * 100`; `delayDraw` for
`Math.random() * delayVariation`. -/
structure GenRand where
  titleIdx : Nat := 0
  suffix : Nat := 0
  authorIdx : Nat := 0
  isbnDigit : Nat := 0
  isbnNum : Nat := 0
  yearOff : Nat := 0
  availDraw : ℚ := 0
  catIdx : Nat := 0
  bookOff : Nat := 0
  userIdDraw : Nat := 0
  userIdx : Nat := 0
  typeIdx : Nat := 0
  fineDraw : Nat := 0
deriving DecidableEq, Repr

structure TickRand where
  errDraw : ℚ := 0
  dupDraw : ℚ := 0
  delayDraw : ℤ := 0
  gen : GenRand := {}
deriving DecidableEq, Repr

/-- The fixed vocabulary `this.bookTitles`. -/
def bookTitles : List String :=
  ["The Midnight Library", "Project Hail Mary", "Dune Messiah",
   "Foundation\x27s Edge", "The Way of Kings", "Name of the Wind",
   "Neuromancer", "Snow Crash", "Ready Player Two",
   "The Hobbit Returns", "Ender\x27s Shadow", "Hyperion Cantos",
   "The Expanse: Leviathan", "Red Rising: Golden Son", "Mistborn: Shadows"]

/-- The fixed vocabulary `this.issueTypes`. -/
def issueTypes : List String :=
  ["borrowed", "returned", "renewed", "damaged", "lost", "reserved", "overdue"]

/-- The fixed vocabulary `this.users`. -/
def users : List String :=
  ["Alice Johnson", "Bob Smith", "Charlie Brown", "Diana Prince",
   "Ethan Hunt", "Fiona Green", "George Wilson", "Hannah Lee"]

/-- The category vocabulary of `generateBookData`. -/
def categories : List String :=
  ["Fiction", "Science", "History", "Technology", "Fantasy"]

/-- Record produced by `generateBookData`.  Timestamps are the clock
value at generation time. -/
structure BookData where
  id : Nat
  title : String
  author : String
  isbn : String
  publishedYear : Nat
  available : Bool
  timestamp : ℤ
  category : String
deriving DecidableEq, Repr

/-- Record produced by `generateIssueData`. -/
structure IssueData where
  id : Nat
  bookId : Nat
  userId : Nat
  userName : String
  issueType : String
  timestamp : ℤ
  dueDate : Option ℤ
  fine : Nat
  notes : String
deriving DecidableEq, Repr

inductive Payload
  | book (b : BookData)
  | issue (i : IssueData)
deriving DecidableEq, Repr

/-- `generateBookData(index)`.  Each `Math.floor(Math.random() * n)` draw
is passed in as a natural number and reduced `% n`, which is the identity
on the range the source draws from. -/
def generateBookData (index : Nat) (now : ℤ) (r : GenRand) : BookData :=
  { id := 1000 + index
    title := bookTitles.getD (r.titleIdx % bookTitles.length) "" ++ " #" ++
      toString (r.suffix % 100)
    author := users.getD (r.authorIdx % users.length) ""
    isbn := "978-" ++ toString (r.isbnDigit % 10) ++ toString (r.isbnNum % 100000000)
    publishedYear := 2000 + r.yearOff % 24
    available := r.availDraw > 3 / 10
    timestamp := now
    category := categories.getD (r.catIdx % categories.length) "" }

/-- `generateIssueData(index)`.  `Math.floor(Math.random() * index + 1)`
equals `Math.floor(Math.random() * index) + 1`, a value in `[1, index]`
(and `1` when `index = 0`). -/
def generateIssueData (index : Nat) (now : ℤ) (r : GenRand) : IssueData :=
  let bookId := 1000 + (if index = 0 then 0 else r.bookOff % index) + 1
  let issueType := issueTypes.getD (r.typeIdx % issueTypes.length) ""
  { id := 5000 + index
    bookId := bookId
    userId := r.userIdDraw % 100 + 1
    userName := users.getD (r.userIdx % users.length) ""
    issueType := issueType
    timestamp := now
    dueDate := if issueType = "borrowed" then some (now + 14 * 24 * 60 * 60 * 1000) else none
    fine := if issueType = "overdue" then r.fineDraw % 50 + 5 else 0
    notes := issueType ++ " operation for book " ++ toString bookId }

/-- `streamName === 'books' ? generateBookData(...) : generateIssueData(...)`. -/
def genPayload (streamName : String) (index : Nat) (now : ℤ) (r : GenRand) : Payload :=
  if streamName = "books" then .book (generateBookData index now r)
  else .issue (generateIssueData index now r)

/-- Where an emission goes: `io.emit` broadcasts, `socket.emit` targets one
connection, and the HTTP routes pass the stub socket `{ emit: () => {} }`
whose emissions are discarded. -/
inductive Sink
  | broadcast
  | socket (sid : Nat)
  | nullSocket
deriving DecidableEq, Repr

/-- The events the engine emits. -/
inductive Event
  | payload (channel : String) (data : Payload)
  | errorEvent (streamName : String) (error message : String) (timestamp : ℤ)
  | complete (streamName : String) (totalEmissions : Nat) (duration : ℤ)
  | streamStopped (streamName : String)
  | streamStarted (streamName : String) (cfg : StreamCfg)
deriving DecidableEq, Repr

structure Emit where
  sink : Sink
  event : Event
deriving DecidableEq, Repr

/-- The variables captured by one `startStream` call's closures. -/
structure Closure where
  cfg : StreamCfg
  startTime : ℤ
  emissionCount : Nat
  lastEmittedData : Option Payload
deriving DecidableEq, Repr

/-- A pending `setTimeout` callback: either a burst-staggered call of
`emitData`, or the delayed broadcast of a freshly generated payload
(which also increments `emissionCount` when it runs). -/
inductive TaskKind
  | attempt
  | broadcastFresh (data : Payload)
deriving DecidableEq, Repr

structure Task where
  lineage : Nat
  due : ℤ
  kind : TaskKind
deriving DecidableEq, Repr

/-- The server state.  `nextLineage` mints timer identities; an entry of
`activeStreams` maps a stream name to the lineage whose `intervalId` it
owns.  Closures persist after a stream is stopped, as JavaScript closures
do. -/
structure Engine where
  nextLineage : Nat
  activeStreams : List (String × Nat)
  streamConfigs : List (String × StreamCfg)
  closures : List (Nat × Closure)
  liveIntervals : List Nat
  tasks : List Task
deriving DecidableEq, Repr

def Engine.init : Engine :=
  { nextLineage := 0, activeStreams := [], streamConfigs := [],
    closures := [], liveIntervals := [], tasks := [] }

/-- `stopStream(streamName)`: a no-op when the name is absent; otherwise
`clearInterval`, delete from both maps, broadcast `stream-stopped`.
Pending `setTimeout` tasks are NOT cancelled, as in the source. -/
def stopStream (e : Engine) (streamName : String) : Engine × List Emit :=
  match mget e.activeStreams streamName with
  | none => (e, [])
  | some lin =>
    ({ e with liveIntervals := e.liveIntervals.filter (fun l => !(l == lin))
              activeStreams := mdel e.activeStreams streamName
              streamConfigs := mdel e.streamConfigs streamName },
     [⟨.broadcast, .streamStopped streamName⟩])

/-- One call of the source's `emitData` closure for lineage `lin` at time
`now`, with the call's random draws.  Branches in source order:
duration check (which calls `stopStream` before broadcasting the
completion event), error injection, duplicate injection, fresh emission
(store the payload, schedule the broadcast after the delay; the count is
incremented by the scheduled task, not here). -/
def emitData (e : Engine) (lin : Nat) (now : ℤ) (r : TickRand) : Engine × List Emit :=
  match mget e.closures lin with
  | none => (e, [])
  | some c =>
    let streamName := c.cfg.streamName
    let elapsed := now - c.startTime
    if c.cfg.duration ≤ elapsed then
      let s := stopStream e streamName
      (s.1, s.2 ++ [⟨.broadcast, .complete streamName c.emissionCount elapsed⟩])
    else if 0 < c.cfg.errorRate ∧ r.errDraw < c.cfg.errorRate then
      (e, [⟨.broadcast, .errorEvent streamName "Simulated error"
              "Random error for teaching error handling operators" now⟩])
    else if hd : 0 < c.cfg.duplicateRate ∧ r.dupDraw < c.cfg.duplicateRate ∧
        c.lastEmittedData.isSome then
      ({ e with
          closures := mset e.closures lin { c with emissionCount := c.emissionCount + 1 } },
       [⟨.broadcast, .payload streamName (c.lastEmittedData.get hd.2.2)⟩])
    else
      let data := genPayload streamName c.emissionCount now r.gen
      let emitDelay := if 0 < c.cfg.delayVariation then r.delayDraw else 0
      ({ e with closures := mset e.closures lin { c with lastEmittedData := some data }
                tasks := e.tasks ++ [⟨lin, now + emitDelay, .broadcastFresh data⟩] },
       [])

/-- `startStream(socket, config)`: stop any existing stream of that name,
record the config, create the closure variables, start the timer; in
normal mode run `emitData` once immediately (before the registry entry is
installed, as in the source); install the registry entry; finally
`socket.emit('stream-started', ...)` to the initiating socket only. -/
def startStream (e : Engine) (sock : Sink) (cfg : StreamCfg) (now : ℤ) (r : TickRand) :
    Engine × List Emit :=
  let s := stopStream e cfg.streamName
  let e2 := { s.1 with streamConfigs := mset s.1.streamConfigs cfg.streamName cfg }
  let lin := e2.nextLineage
  let e3 := { e2 with nextLineage := lin + 1
                      closures := mset e2.closures lin ⟨cfg, now, 0, none⟩
                      liveIntervals := lin :: e2.liveIntervals }
  let s2 := if cfg.burstMode then (e3, ([] : List Emit)) else emitData e3 lin now r
  let e5 := { s2.1 with activeStreams := mset s2.1.activeStreams cfg.streamName lin }
  (e5, s.2 ++ s2.2 ++ [⟨sock, .streamStarted cfg.streamName cfg⟩])

/-- An event-loop occurrence: a `start-stream` command, a `stop-stream`
command, an interval timer firing, or a pending `setTimeout` callback
(`runTask i`) executing at a time past its due time. -/
inductive Step
  | start (sock : Sink) (cfg : StreamCfg) (now : ℤ) (r : TickRand)
  | stop (name : String)
  | intervalFire (lin : Nat) (now : ℤ) (r : TickRand)
  | runTask (i : Nat) (now : ℤ) (r : TickRand)
deriving DecidableEq, Repr

/-- Execute one event-loop occurrence.  An interval fire is a no-op when
the interval was cleared; in burst mode it schedules `burstSize`
staggered attempts 100 ms apart, in normal mode it calls `emitData`.
A `broadcastFresh` task broadcasts the stored payload and increments the
closure's `emissionCount`. -/
def execStep (e : Engine) (st : Step) : Engine × List Emit :=
  match st with
  | .start sock cfg now r => startStream e sock cfg now r
  | .stop name => stopStream e name
  | .intervalFire lin now r =>
    if lin ∈ e.liveIntervals then
      match mget e.closures lin with
      | none => (e, [])
      | some c =>
        if c.cfg.burstMode then
          ({ e with
              tasks := e.tasks ++ (List.range c.cfg.burstSize).map
                (fun i => ⟨lin, now + (i : ℤ) * 100, .attempt⟩) }, [])
        else emitData e lin now r
    else (e, [])
  | .runTask i now r =>
    match e.tasks[i]? with
    | none => (e, [])
    | some t =>
      if t.due ≤ now then
        let e' := { e with tasks := e.tasks.eraseIdx i }
        match t.kind with
        | .attempt => emitData e' t.lineage now r
        | .broadcastFresh d =>
          match mget e'.closures t.lineage with
          | none => (e', [])
          | some c =>
            ({ e' with
                closures :=
                  mset e'.closures t.lineage { c with emissionCount := c.emissionCount + 1 } },
             [⟨.broadcast, .payload c.cfg.streamName d⟩])
      else (e, [])

/-- Run a list of event-loop occurrences, collecting all emissions. -/
def execTrace (e : Engine) : List Step → Engine × List Emit
  | [] => (e, [])
  | st :: rest =>
    let s := execStep e st
    let s2 := execTrace s.1 rest
    (s2.1, s.2 ++ s2.2)

/-- Run a trace from the freshly constructed server. -/
def runTrace (steps : List Step) : Engine × List Emit :=
  execTrace Engine.init steps

/-- `POST /streams/stop/:streamName`: 503 when the socket server instance
is not set, otherwise stop and answer 200 regardless of prior
existence. -/
def routeStopStream (inst : Option Engine) (streamName : String) :
    Nat × Option Engine × List Emit :=
  match inst with
  | none => (503, none, [])
  | some e =>
    let s := stopStream e streamName
    (200, some s.1, s.2)

/-- `POST /streams/start`: 503 without an instance, 400 when the body's
`streamName` is falsy (absent is modelled as the empty string), otherwise
start the stream passing the stub socket `{ emit: () => {} }`. -/
def routeStartStream (inst : Option Engine) (body : StreamCfg) (now : ℤ) (r : TickRand) :
    Nat × Option Engine × List Emit :=
  match inst with
  | none => (503, none, [])
  | some e =>
    if body.streamName = "" then (400, some e, [])
    else
      let s := startStream e Sink.nullSocket body now r
      (200, some s.1, s.2)

/-! ### Map lemmas -/

theorem mget_mdel_self {κ α : Type} [DecidableEq κ] (m : List (κ × α)) (k : κ) :
    mget (mdel m k) k = none := by
  induction m with
  | nil => rfl
  | cons p rest ih =>
    obtain ⟨k', v⟩ := p
    by_cases h : k' = k <;> simp [mdel, mget, h, ih]

theorem mget_mdel_ne {κ α : Type} [DecidableEq κ] (m : List (κ × α)) (k k' : κ)
    (h : k ≠ k') : mget (mdel m k) k' = mget m k' := by
  induction m with
  | nil => rfl
  | cons p rest ih =>
    obtain ⟨k0, v⟩ := p
    by_cases h0 : k0 = k
    · subst h0
      simp [mdel, mget, h, ih]
    · simp only [mdel, if_neg h0]
      by_cases h1 : k0 = k' <;> simp [mget, h1, ih]

theorem mget_mset_self {κ α : Type} [DecidableEq κ] (m : List (κ × α)) (k : κ) (v : α) :
    mget (mset m k v) k = some v := by
  simp [mset, mget]

theorem mget_mset_ne {κ α : Type} [DecidableEq κ] (m : List (κ × α)) (k k' : κ) (v : α)
    (h : k ≠ k') : mget (mset m k v) k' = mget m k' := by
  simp [mset, mget, h, mget_mdel_ne m k k' h]

def mkeys {κ α : Type} (m : List (κ × α)) : List κ := m.map Prod.fst

theorem mkeys_mdel_sublist {κ α : Type} [DecidableEq κ] (m : List (κ × α)) (k : κ) :
    (mkeys (mdel m k)).Sublist (mkeys m) := by
  induction m with
  | nil => simp [mdel, mkeys]
  | cons p rest ih =>
    obtain ⟨k0, v⟩ := p
    by_cases h : k0 = k
    · simpa [mdel, mkeys, h] using ih.cons k0
    · simpa [mdel, mkeys, h] using ih.cons₂ k0

theorem not_mem_mkeys_mdel_self {κ α : Type} [DecidableEq κ] (m : List (κ × α)) (k : κ) :
    k ∉ mkeys (mdel m k) := by
  induction m with
  | nil => simp [mdel, mkeys]
  | cons p rest ih =>
    obtain ⟨k0, v⟩ := p
    by_cases h : k0 = k
    · simpa [mdel, if_pos h] using ih
    · simp only [mdel, if_neg h, mkeys, List.map_cons, List.mem_cons, not_or]
      exact ⟨fun hk => h hk.symm, ih⟩

theorem mkeys_mdel_nodup {κ α : Type} [DecidableEq κ] (m : List (κ × α)) (k : κ)
    (h : (mkeys m).Nodup) : (mkeys (mdel m k)).Nodup :=
  h.sublist (mkeys_mdel_sublist m k)

theorem mkeys_mset_nodup {κ α : Type} [DecidableEq κ] (m : List (κ × α)) (k : κ) (v : α)
    (h : (mkeys m).Nodup) : (mkeys (mset m k v)).Nodup := by
  have h1 : mkeys (mset m k v) = k :: mkeys (mdel m k) := rfl
  rw [h1, List.nodup_cons]
  exact ⟨not_mem_mkeys_mdel_self m k, mkeys_mdel_nodup m k h⟩

/-! ### Branch classifier and per-tick observables -/

/-- Which of the four branches of `emitData` runs, in the source's strict
evaluation order: duration check, error injection, duplicate injection,
fresh emission. -/
inductive Branch
  | complete
  | error
  | dup
  | fresh
deriving DecidableEq, Repr

/-- The branch `emitData` selects for closure `c` at time `now` with the
attempt's random draws, in the source's order. -/
def tickBranch (c : Closure) (now : ℤ) (r : TickRand) : Branch :=
  if c.cfg.duration ≤ now - c.startTime then .complete
  else if 0 < c.cfg.errorRate ∧ r.errDraw < c.cfg.errorRate then .error
  else if 0 < c.cfg.duplicateRate ∧ r.dupDraw < c.cfg.duplicateRate ∧
      c.lastEmittedData.isSome then .dup
  else .fresh

/-- The emission list contains a completion event. -/
def ticksComplete (ems : List Emit) : Bool :=
  ems.any fun em => match em.event with | .complete _ _ _ => true | _ => false

/-- The emission list contains an error event. -/
def ticksError (ems : List Emit) : Bool :=
  ems.any fun em => match em.event with | .errorEvent _ _ _ _ => true | _ => false

/-- The emission list contains a payload broadcast (a duplicate replay,
when produced by `emitData` itself). -/
def ticksPayload (ems : List Emit) : Bool :=
  ems.any fun em => match em.event with | .payload _ _ => true | _ => false

/-- A fresh broadcast was scheduled: the task queue grew. -/
def schedulesFresh (e e' : Engine) : Bool := decide (e.tasks.length < e'.tasks.length)

theorem stopStream_emits (e : Engine) (name : String) :
    (stopStream e name).2 = [] ∨
      (stopStream e name).2 = [⟨.broadcast, .streamStopped name⟩] := by
  unfold stopStream
  cases mget e.activeStreams name <;> simp

theorem stopStream_tasks (e : Engine) (name : String) :
    (stopStream e name).1.tasks = e.tasks := by
  unfold stopStream
  cases mget e.activeStreams name <;> simp

theorem stopStream_closures (e : Engine) (name : String) :
    (stopStream e name).1.closures = e.closures := by
  unfold stopStream
  cases mget e.activeStreams name <;> simp

theorem stopStream_nextLineage (e : Engine) (name : String) :
    (stopStream e name).1.nextLineage = e.nextLineage := by
  unfold stopStream
  cases mget e.activeStreams name <;> simp

/-! ### C1: each emission attempt runs exactly one branch -/

/-- C1: for every stream and every emission attempt, exactly one of the
four branches (duration-complete, error injection, duplicate injection,
fresh emission) executes, in the source's strict evaluation order
(`tickBranch` tests the guards in exactly that order): the attempt
broadcasts a completion event iff the branch is `complete`, an error
event iff it is `error`, a payload (the duplicate replay) iff it is
`dup`, and schedules a fresh broadcast iff it is `fresh`; since
`tickBranch` is a single value, no attempt produces two of these
effects. -/
theorem c1_tick_exactly_one_branch (e : Engine) (lin : Nat) (now : ℤ) (r : TickRand)
    (c : Closure) (h : mget e.closures lin = some c) :
    (ticksComplete (emitData e lin now r).2 = true ↔ tickBranch c now r = .complete) ∧
    (ticksError (emitData e lin now r).2 = true ↔ tickBranch c now r = .error) ∧
    (ticksPayload (emitData e lin now r).2 = true ↔ tickBranch c now r = .dup) ∧
    (schedulesFresh e (emitData e lin now r).1 = true ↔ tickBranch c now r = .fresh) := by
  simp only [emitData, h]
  simp only [tickBranch]
  split_ifs with h1 h2 h3 h4
  · rcases stopStream_emits e c.cfg.streamName with hse | hse <;>
      simp [hse, ticksComplete, ticksError, ticksPayload, schedulesFresh,
        stopStream_tasks e c.cfg.streamName]
  all_goals
    simp [ticksComplete, ticksError, ticksPayload, schedulesFresh,
      List.length_append, Nat.lt_succ_self]

/-- Concrete closure for witnesses: a freshly started `books` stream. -/
def cW1 : Closure := ⟨{ streamName := "books" }, 0, 0, none⟩

/-- Concrete engine for witnesses: `books` running as lineage 0. -/
def eW1 : Engine :=
  { nextLineage := 1, activeStreams := [("books", 0)],
    streamConfigs := [("books", { streamName := "books" })],
    closures := [(0, cW1)], liveIntervals := [0], tasks := [] }

theorem c1_witness :
    (ticksComplete (emitData eW1 0 500 {}).2 = true ↔ tickBranch cW1 500 {} = .complete) ∧
    (ticksError (emitData eW1 0 500 {}).2 = true ↔ tickBranch cW1 500 {} = .error) ∧
    (ticksPayload (emitData eW1 0 500 {}).2 = true ↔ tickBranch cW1 500 {} = .dup) ∧
    (schedulesFresh eW1 (emitData eW1 0 500 {}).1 = true ↔ tickBranch cW1 500 {} = .fresh) :=
  c1_tick_exactly_one_branch eW1 0 500 {} cW1 rfl

/-! ### C8: an error tick changes nothing but broadcasts one error event -/

/-- C8: on an error-injection tick the engine state is entirely unchanged
(`emissionCount`, `lastEmittedPayload`, the registry maps, the timers and
the task queue included) and the only emission is the error event on the
stream's error channel. -/
theorem c8_error_tick_frame (e : Engine) (lin : Nat) (now : ℤ) (r : TickRand) (c : Closure)
    (h : mget e.closures lin = some c) (hb : tickBranch c now r = .error) :
    emitData e lin now r =
      (e, [⟨.broadcast, .errorEvent c.cfg.streamName "Simulated error"
            "Random error for teaching error handling operators" now⟩]) := by
  simp only [emitData, h]
  simp only [tickBranch] at hb
  split_ifs at hb ⊢ with h1 h2 h3
  all_goals rfl

/-- Closure for the C8 witness: running with `errorRate = 100`. -/
def cW8 : Closure := ⟨{ streamName := "books", errorRate := 100 }, 0, 0, none⟩

/-- Engine for the C8 witness. -/
def eW8 : Engine :=
  { nextLineage := 1, activeStreams := [("books", 0)],
    streamConfigs := [("books", { streamName := "books", errorRate := 100 })],
    closures := [(0, cW8)], liveIntervals := [0], tasks := [] }

theorem c8_witness :
    emitData eW8 0 500 {} =
      (eW8, [⟨.broadcast, .errorEvent "books" "Simulated error"
            "Random error for teaching error handling operators" 500⟩]) :=
  c8_error_tick_frame eW8 0 500 {} cW8 rfl (by decide)

/-! ### C5: stop is idempotent -/

/-- C5: `stop(name)` is idempotent: when `name` is absent it is a no-op
(no event, no state change); when present it cancels the interval
handle, removes the entry from both registry maps, broadcasts exactly one
`stream-stopped` notification, and touches neither the closures nor the
pending task queue; and the HTTP stop endpoint answers 200 whether or not
the stream existed. -/
theorem c5_stop_idempotent :
    (∀ (e : Engine) (name : String), mget e.activeStreams name = none →
      stopStream e name = (e, [])) ∧
    (∀ (e : Engine) (name : String) (lin : Nat), mget e.activeStreams name = some lin →
      mget (stopStream e name).1.activeStreams name = none ∧
      mget (stopStream e name).1.streamConfigs name = none ∧
      lin ∉ (stopStream e name).1.liveIntervals ∧
      (stopStream e name).1.closures = e.closures ∧
      (stopStream e name).1.tasks = e.tasks ∧
      (stopStream e name).2 = [⟨.broadcast, .streamStopped name⟩]) ∧
    (∀ (e : Engine) (name : String), (routeStopStream (some e) name).1 = 200) := by
  refine ⟨fun e name h => ?_, fun e name lin h => ?_, fun e name => rfl⟩
  · simp [stopStream, h]
  · simp [stopStream, h, mget_mdel_self, List.mem_filter]

theorem c5_witness :
    (stopStream Engine.init "books" = (Engine.init, [])) ∧
    (mget (stopStream eW1 "books").1.activeStreams "books" = none ∧
      mget (stopStream eW1 "books").1.streamConfigs "books" = none ∧
      0 ∉ (stopStream eW1 "books").1.liveIntervals ∧
      (stopStream eW1 "books").1.closures = eW1.closures ∧
      (stopStream eW1 "books").1.tasks = eW1.tasks ∧
      (stopStream eW1 "books").2 = [⟨.broadcast, .streamStopped "books"⟩]) ∧
    ((routeStopStream (some eW1) "books").1 = 200) :=
  ⟨c5_stop_idempotent.1 Engine.init "books" rfl,
   c5_stop_idempotent.2.1 eW1 "books" 0 rfl,
   c5_stop_idempotent.2.2 eW1 "books"⟩

/-! ### C10: the duration branch reuses the explicit-stop code path -/

/-- C10 (amended): when the duration branch of an emission attempt fires
while the stream's name is registered, the attempt broadcasts exactly
`stream-stopped` followed by the completion event (in that order, through
the same `stopStream` code path as an explicit stop), and removes the
name from both registry maps.  The unamended claim fails when the branch
fires while the name is not registered (see the counterexample): the
immediate attempt of a `duration ≤ 0` start runs before the registry
entry is installed and broadcasts the completion event alone. -/
theorem c10_completion_uses_stop_path (e : Engine) (lin : Nat) (now : ℤ) (r : TickRand)
    (c : Closure) (l : Nat) (h : mget e.closures lin = some c)
    (hb : tickBranch c now r = .complete)
    (hreg : mget e.activeStreams c.cfg.streamName = some l) :
    (emitData e lin now r).2 =
      [⟨.broadcast, .streamStopped c.cfg.streamName⟩,
       ⟨.broadcast, .complete c.cfg.streamName c.emissionCount (now - c.startTime)⟩] ∧
    mget (emitData e lin now r).1.activeStreams c.cfg.streamName = none ∧
    mget (emitData e lin now r).1.streamConfigs c.cfg.streamName = none := by
  simp only [emitData, h]
  simp only [tickBranch] at hb
  split_ifs at hb ⊢ with h1
  simp [stopStream, hreg, mget_mdel_self]

/-- Closure for the C10 witness: `duration = 0`, registered. -/
def cW10 : Closure := ⟨{ streamName := "books", duration := 0 }, 0, 0, none⟩

/-- Engine for the C10 witness. -/
def eW10 : Engine :=
  { nextLineage := 1, activeStreams := [("books", 0)],
    streamConfigs := [("books", { streamName := "books", duration := 0 })],
    closures := [(0, cW10)], liveIntervals := [0], tasks := [] }

theorem c10_witness :
    (emitData eW10 0 5 {}).2 =
      [⟨.broadcast, .streamStopped "books"⟩,
       ⟨.broadcast, .complete "books" 0 (5 - 0)⟩] ∧
    mget (emitData eW10 0 5 {}).1.activeStreams "books" = none ∧
    mget (emitData eW10 0 5 {}).1.streamConfigs "books" = none :=
  c10_completion_uses_stop_path eW10 0 5 {} cW10 0 rfl (by decide) rfl

/-- C10 as claimed: every completion broadcast is accompanied by a
`stream-stopped` broadcast in the same attempt and by removal of the name
from `streamConfigs`. -/
def C10Claim : Prop :=
  ∀ (pre : List Step) (st : Step) (name : String) (n : Nat) (d : ℤ),
    (⟨.broadcast, .complete name n d⟩ : Emit) ∈ (execStep (runTrace pre).1 st).2 →
    (⟨.broadcast, .streamStopped name⟩ : Emit) ∈ (execStep (runTrace pre).1 st).2 ∧
    mget (execStep (runTrace pre).1 st).1.streamConfigs name = none

/-- C10 counterexample: starting `books` with `duration = 0` broadcasts
`books-complete` from the immediate attempt with no `stream-stopped`
broadcast and with `books` still listed in `streamConfigs`: the attempt
runs before `startStream` installs the registry entry, so its
`stopStream` call is a no-op. -/
theorem c10_counterexample : ¬ C10Claim := by
  intro hcl
  have h := hcl [] (.start (.socket 0) { streamName := "books", duration := 0 } 0 {})
    "books" 0 0 (by decide)
  exact absurd h (by decide)

/-! ### C9: where the stream-started event goes -/

/-- The emission is a `stream-started` lifecycle event. -/
def isStreamStarted (em : Emit) : Bool :=
  match em.event with | .streamStarted _ _ => true | _ => false

theorem stopStream_no_started (e : Engine) (name : String) :
    (stopStream e name).2.filter isStreamStarted = [] := by
  rcases stopStream_emits e name with hse | hse <;> simp [hse, isStreamStarted]

theorem emitData_no_started (e : Engine) (lin : Nat) (now : ℤ) (r : TickRand) :
    (emitData e lin now r).2.filter isStreamStarted = [] := by
  rcases h : mget e.closures lin with _ | c
  · simp [emitData, h]
  · simp only [emitData, h]
    split_ifs with h1 h2 h3 h4
    · rcases stopStream_emits e c.cfg.streamName with hse | hse <;>
        simp [hse, isStreamStarted]
    all_goals simp [isStreamStarted]

/-- C9 (amended): the `stream-started({streamName, config})` event is NOT
broadcast: `startStream` sends exactly one such event, targeted at the
socket that initiated the start (`socket.emit`), and the HTTP start route
passes the no-op stub socket, so over the request/response surface the
event reaches nobody. -/
theorem c9_started_targeted :
    (∀ (e : Engine) (sock : Sink) (cfg : StreamCfg) (now : ℤ) (r : TickRand),
      (startStream e sock cfg now r).2.filter isStreamStarted =
        [⟨sock, .streamStarted cfg.streamName cfg⟩]) ∧
    (∀ (e : Engine) (body : StreamCfg) (now : ℤ) (r : TickRand), body.streamName ≠ "" →
      (routeStartStream (some e) body now r).2.2.filter isStreamStarted =
        [⟨Sink.nullSocket, .streamStarted body.streamName body⟩]) := by
  have hmain : ∀ (e : Engine) (sock : Sink) (cfg : StreamCfg) (now : ℤ) (r : TickRand),
      (startStream e sock cfg now r).2.filter isStreamStarted =
        [⟨sock, .streamStarted cfg.streamName cfg⟩] := by
    intro e sock cfg now r
    by_cases hb : cfg.burstMode <;>
      simp [startStream, hb, List.filter_append, stopStream_no_started,
        emitData_no_started, isStreamStarted]
  refine ⟨hmain, fun e body now r hname => ?_⟩
  simp only [routeStartStream, if_neg hname]
  exact hmain e Sink.nullSocket body now r

theorem c9_witness :
    ((startStream Engine.init (.socket 7) { streamName := "books" } 0 {}).2.filter
        isStreamStarted =
      [⟨.socket 7, .streamStarted "books" { streamName := "books" }⟩]) ∧
    (("books" : String) ≠ "" ∧
      (routeStartStream (some Engine.init) { streamName := "books" } 0 {}).2.2.filter
          isStreamStarted =
        [⟨Sink.nullSocket, .streamStarted "books" { streamName := "books" }⟩]) :=
  ⟨c9_started_targeted.1 Engine.init (.socket 7) { streamName := "books" } 0 {},
   by decide,
   c9_started_targeted.2 Engine.init { streamName := "books" } 0 {} (by decide)⟩

/-- C9 as claimed: every `stream-started` emission, over either surface,
is a broadcast to all connected listeners. -/
def C9Claim : Prop :=
  ∀ (pre : List Step) (st : Step) (s : Sink) (name : String) (cfg : StreamCfg),
    (⟨s, .streamStarted name cfg⟩ : Emit) ∈ (execStep (runTrace pre).1 st).2 →
    s = Sink.broadcast

/-- C9 counterexample: a session start emits `stream-started` with sink
`socket 0`, not `broadcast` (`socket.emit`, not `io.emit`). -/
theorem c9_counterexample : ¬ C9Claim := by
  intro hcl
  have h := hcl [] (.start (.socket 0) { streamName := "books" } 0 {})
    (.socket 0) "books" { streamName := "books" } (by decide)
  exact absurd h (by decide)

/-! ### C2: how emissionCount changes -/

/-- The `emissionCount` of lineage `lin` in a closures map, `0` when no
such closure exists. -/
def closureCount (m : List (Nat × Closure)) (lin : Nat) : Nat :=
  ((mget m lin).map Closure.emissionCount).getD 0

/-- The `lastEmittedData` of lineage `lin` in a closures map, `none` when
no such closure exists. -/
def closureLast (m : List (Nat × Closure)) (lin : Nat) : Option Payload :=
  (mget m lin).bind Closure.lastEmittedData

/-- The attempt for lineage `lin` at `now` with draws `r` takes the
duplicate branch. -/
def attemptDup (e : Engine) (lin : Nat) (now : ℤ) (r : TickRand) : Bool :=
  match mget e.closures lin with
  | some c => tickBranch c now r == Branch.dup
  | none => false

/-- The occurrence increments lineage `lin`'s `emissionCount`: a
duplicate-branch emission attempt for `lin`, or the scheduled broadcast
of one of `lin`'s fresh payloads coming due. -/
def stepIncrements (e : Engine) (st : Step) (lin : Nat) : Bool :=
  match st with
  | .start _ _ _ _ => false
  | .stop _ => false
  | .intervalFire l now r =>
    decide (l = lin) && decide (l ∈ e.liveIntervals) &&
      (match mget e.closures l with
       | some c => !c.cfg.burstMode && attemptDup e l now r
       | none => false)
  | .runTask i now r =>
    match e.tasks[i]? with
    | none => false
    | some t =>
      decide (t.lineage = lin) && decide (t.due ≤ now) &&
        (match t.kind with
         | .attempt => attemptDup { e with tasks := e.tasks.eraseIdx i } t.lineage now r
         | .broadcastFresh _ => (mget e.closures t.lineage).isSome)

/-- Every closure's lineage id is below the mint counter; holds in every
reachable state (fresh `setInterval` handles are never reused). -/
def WfLineages (e : Engine) : Prop := ∀ p ∈ e.closures, p.1 < e.nextLineage

theorem mget_mem {κ α : Type} [DecidableEq κ] {m : List (κ × α)} {k : κ} {v : α}
    (h : mget m k = some v) : (k, v) ∈ m := by
  induction m with
  | nil => simp [mget] at h
  | cons p rest ih =>
    obtain ⟨k0, v0⟩ := p
    by_cases h0 : k0 = k
    · subst h0
      simp [mget] at h
      simp [h]
    · simp only [mget, if_neg h0] at h
      exact List.mem_cons_of_mem _ (ih h)

theorem option_cases {α : Type} (o : Option α) : o = none ∨ ∃ x, o = some x := by
  cases o
  · exact Or.inl rfl
  · exact Or.inr ⟨_, rfl⟩

theorem taskKind_cases (k : TaskKind) :
    k = TaskKind.attempt ∨ ∃ d, k = TaskKind.broadcastFresh d := by
  cases k
  · exact Or.inl rfl
  · exact Or.inr ⟨_, rfl⟩

theorem emitData_count (e : Engine) (lin' : Nat) (now : ℤ) (r : TickRand) (lin : Nat) :
    closureCount (emitData e lin' now r).1.closures lin =
      closureCount e.closures lin +
        (if lin = lin' ∧ attemptDup e lin' now r then 1 else 0) := by
  rcases h : mget e.closures lin' with _ | c
  · simp [emitData, h, attemptDup]
  · have had : attemptDup e lin' now r = (tickBranch c now r == Branch.dup) := by
      simp [attemptDup, h]
    by_cases h1 : c.cfg.duration ≤ now - c.startTime
    · have hbr : tickBranch c now r = .complete := by simp [tickBranch, h1]
      simp only [emitData, h, if_pos h1]
      simp [closureCount, stopStream_closures, had, hbr]
    · by_cases h2 : 0 < c.cfg.errorRate ∧ r.errDraw < c.cfg.errorRate
      · have hbr : tickBranch c now r = .error := by simp [tickBranch, h1, h2]
        simp only [emitData, h, if_neg h1, if_pos h2]
        simp [closureCount, had, hbr]
      · by_cases h3 : 0 < c.cfg.duplicateRate ∧ r.dupDraw < c.cfg.duplicateRate ∧
            c.lastEmittedData.isSome
        · have hbr : tickBranch c now r = .dup := by simp [tickBranch, h1, h2, h3]
          simp only [emitData, h, if_neg h1, if_neg h2, dif_pos h3]
          by_cases hl : lin = lin'
          · subst hl
            simp [closureCount, mget_mset_self, h, had, hbr]
          · simp [closureCount, mget_mset_ne _ _ _ _ (Ne.symm hl), hl]
        · have hbr : tickBranch c now r = .fresh := by simp [tickBranch, h1, h2, h3]
          simp only [emitData, h, if_neg h1, if_neg h2, dif_neg h3]
          by_cases hl : lin = lin'
          · subst hl
            simp [closureCount, mget_mset_self, h, had, hbr]
          · simp [closureCount, mget_mset_ne _ _ _ _ (Ne.symm hl), hl]

/-- The immediate attempt of a fresh start can never take the duplicate
branch: `lastEmittedData` is still absent. -/
theorem tickBranch_fresh_start (cfg : StreamCfg) (t0 now : ℤ) (r : TickRand) :
    (tickBranch ⟨cfg, t0, 0, none⟩ now r == Branch.dup) = false := by
  unfold tickBranch
  split_ifs with h1 h2 h3 <;> simp_all

/-- A fresh start leaves every stream's `emissionCount` unchanged: the
new closure starts at 0, and the immediate attempt cannot take the
duplicate branch. -/
theorem startStream_count (e : Engine) (sock : Sink) (cfg : StreamCfg) (now : ℤ)
    (r : TickRand) (lin : Nat) (hwf : WfLineages e) :
    closureCount (startStream e sock cfg now r).1.closures lin = closureCount e.closures lin := by
  have hnew : mget e.closures e.nextLineage = none := by
    rcases hn : mget e.closures e.nextLineage with _ | c
    · rfl
    · exact absurd (hwf _ (mget_mem hn)) (lt_irrefl _)
  simp only [startStream]
  by_cases hb : cfg.burstMode
  · rw [if_pos hb]
    simp only [stopStream_closures, stopStream_nextLineage]
    by_cases hl : lin = e.nextLineage
    · subst hl
      simp [closureCount, mget_mset_self, hnew]
    · simp [closureCount, mget_mset_ne _ _ _ _ (Ne.symm hl)]
  · rw [if_neg hb]
    rw [emitData_count]
    simp only [attemptDup, mget_mset_self, tickBranch_fresh_start, and_false, if_false,
      Nat.add_zero, stopStream_closures, stopStream_nextLineage]
    by_cases hl : lin = e.nextLineage
    · subst hl
      simp [closureCount, mget_mset_self, hnew]
    · simp [closureCount, mget_mset_ne _ _ _ _ (Ne.symm hl)]

instance (e : Engine) : Decidable (WfLineages e) :=
  inferInstanceAs (Decidable (∀ p ∈ e.closures, p.1 < e.nextLineage))

/-- C2 (amended): on every event-loop occurrence, each stream's
`emissionCount` increases by exactly 1 when the occurrence is a
duplicate-branch emission attempt for that stream or the scheduled
broadcast of one of its fresh payloads coming due, and is unchanged on
every other occurrence (error ticks, completion ticks, stops, starts,
burst scheduling); in particular it never decreases.  The unamended
claim's freezing clause is false on the code: entering STOPPED or
COMPLETE does not prevent an already-scheduled fresh broadcast from
incrementing the count afterwards (see `c2_counterexample`). -/
theorem c2_count_delta (e : Engine) (st : Step) (lin : Nat) (hwf : WfLineages e) :
    closureCount (execStep e st).1.closures lin =
      closureCount e.closures lin + (if stepIncrements e st lin then 1 else 0) := by
  cases st with
  | start sock cfg now r =>
    simpa [execStep, stepIncrements] using startStream_count e sock cfg now r lin hwf
  | stop name =>
    simp [execStep, stepIncrements, closureCount, stopStream_closures]
  | intervalFire l now r =>
    simp only [execStep, stepIncrements]
    rcases option_cases (mget e.closures l) with hc | ⟨c, hc⟩
    · by_cases hlive : l ∈ e.liveIntervals <;> simp [hlive, hc, closureCount]
    · by_cases hlive : l ∈ e.liveIntervals
      · by_cases hb : c.cfg.burstMode
        · simp [hlive, hc, hb, closureCount]
        · have hb' : c.cfg.burstMode = false := by simpa using hb
          simp only [if_pos hlive, hc, hb', Bool.not_false, Bool.true_and,
            Bool.false_eq_true, if_false]
          rw [emitData_count]
          congr 1
          by_cases hl : lin = l
          · subst hl
            simp [hlive]
          · simp [hl, Ne.symm hl]
      · simp [hlive, hc, closureCount]
  | runTask i now r =>
    simp only [execStep, stepIncrements]
    rcases option_cases (e.tasks[i]?) with ht | ⟨t, ht⟩
    · simp [ht, closureCount]
    · by_cases hdue : t.due ≤ now
      · rcases taskKind_cases t.kind with hk | ⟨d, hk⟩
        · simp only [ht, hk, if_pos hdue]
          rw [emitData_count]
          congr 1
          by_cases hl : lin = t.lineage
          · simp [hl, hdue]
          · simp [hl, Ne.symm hl]
        · rcases option_cases (mget e.closures t.lineage) with hc | ⟨c, hc⟩
          · simp [ht, hk, hdue, hc, closureCount]
          · by_cases hl : lin = t.lineage
            · simp [ht, hk, hdue, hc, closureCount, hl, mget_mset_self]
            · simp [ht, hk, hdue, hc, closureCount,
                mget_mset_ne _ _ _ _ (Ne.symm hl), hl, Ne.symm hl]
      · simp [ht, hdue, closureCount]

/-- Engine for the C2 witness: `books` running with one pending fresh
broadcast (hand-written payload) in the task queue. -/
def eW2 : Engine :=
  { nextLineage := 1, activeStreams := [("books", 0)],
    streamConfigs := [("books", { streamName := "books" })],
    closures := [(0, ⟨{ streamName := "books" }, 0, 0,
      some (.book ⟨1000, "t", "a", "i", 2000, false, 0, "Fiction"⟩)⟩)],
    liveIntervals := [0],
    tasks := [⟨0, 0, .broadcastFresh (.book ⟨1000, "t", "a", "i", 2000, false, 0, "Fiction"⟩)⟩] }

theorem c2_witness :
    WfLineages eW2 ∧
    closureCount (execStep eW2 (.runTask 0 5 {})).1.closures 0 =
      closureCount eW2.closures 0 + (if stepIncrements eW2 (.runTask 0 5 {}) 0 then 1 else 0) :=
  ⟨by decide, c2_count_delta eW2 (.runTask 0 5 {}) 0 (by decide)⟩

/-- The stream instance of lineage `lin` is in a terminal state: its
closure exists but its interval handle is cleared and no registry entry
points at it (explicit stop and duration completion both produce this). -/
def Stopped (e : Engine) (lin : Nat) : Prop :=
  (mget e.closures lin).isSome ∧ lin ∉ e.liveIntervals ∧
    ∀ p ∈ e.activeStreams, p.2 ≠ lin

instance (e : Engine) (lin : Nat) : Decidable (Stopped e lin) :=
  inferInstanceAs (Decidable ((mget e.closures lin).isSome ∧ lin ∉ e.liveIntervals ∧
    ∀ p ∈ e.activeStreams, p.2 ≠ lin))

/-- C2 as claimed: once a stream instance is STOPPED (or COMPLETE, which
stops it too), its `emissionCount` never changes again. -/
def C2FrozenClaim : Prop :=
  ∀ (pre post : List Step) (lin : Nat),
    Stopped (runTrace pre).1 lin →
    closureCount (runTrace (pre ++ post)).1.closures lin =
      closureCount (runTrace pre).1.closures lin

/-- C2 counterexample: start `books` (the immediate attempt schedules its
fresh broadcast with delay 0), stop it; the stream is STOPPED with count
0, yet the still-pending broadcast then runs and bumps the count to 1. -/
theorem c2_counterexample : ¬ C2FrozenClaim := by
  intro hcl
  have h := hcl
    [.start (.socket 0) { streamName := "books", duration := 10000 } 0 {}, .stop "books"]
    [.runTask 0 5 {}] 0 (by decide)
  exact absurd h (by decide)

/-! ### C3: when and how the completion event fires -/

/-- The clock value an occurrence runs at (a `stop` command reads no
clock). -/
def stepNow : Step → ℤ
  | .start _ _ now _ => now
  | .stop _ => 0
  | .intervalFire _ now _ => now
  | .runTask _ now _ => now

theorem emitData_complete_mem (e : Engine) (lin : Nat) (now : ℤ) (r : TickRand)
    (name : String) (n : Nat) (d : ℤ)
    (hm : (⟨.broadcast, .complete name n d⟩ : Emit) ∈ (emitData e lin now r).2) :
    ∃ c, mget e.closures lin = some c ∧ name = c.cfg.streamName ∧
      n = c.emissionCount ∧ d = now - c.startTime ∧
      c.cfg.duration ≤ now - c.startTime := by
  rcases option_cases (mget e.closures lin) with h | ⟨c, h⟩
  · simp [emitData, h] at hm
  · by_cases h1 : c.cfg.duration ≤ now - c.startTime
    · refine ⟨c, h, ?_⟩
      simp only [emitData, h, if_pos h1] at hm
      rcases stopStream_emits e c.cfg.streamName with hse | hse <;>
        · rw [hse] at hm
          simp at hm
          exact ⟨hm.1, hm.2.1, hm.2.2, h1⟩
    · by_cases h2 : 0 < c.cfg.errorRate ∧ r.errDraw < c.cfg.errorRate
      · simp [emitData, h, if_neg h1, if_pos h2] at hm
      · by_cases h3 : 0 < c.cfg.duplicateRate ∧ r.dupDraw < c.cfg.duplicateRate ∧
            c.lastEmittedData.isSome
        · simp [emitData, h, if_neg h1, if_neg h2, dif_pos h3] at hm
        · simp [emitData, h, if_neg h1, if_neg h2, dif_neg h3] at hm

/-- C3 (amended): every broadcast completion event comes from the
duration branch of an emission attempt: it carries the emitting stream
instance's name, its `emissionCount` as `totalEmissions`, and the elapsed
time `now - startTime` as `duration`, and it fires only when that elapsed
time has reached the configured duration — never earlier.  The emitting
instance's closure is either registered in the engine or the one a
`duration ≤ 0` start is just creating.  The unamended claim's
at-most-once clause is false on the code (see `c3_counterexample`). -/
theorem c3_completion_content (e : Engine) (st : Step) (name : String) (n : Nat) (d : ℤ)
    (hm : (⟨.broadcast, .complete name n d⟩ : Emit) ∈ (execStep e st).2) :
    ∃ c : Closure,
      ((∃ lin, mget e.closures lin = some c) ∨
        (∃ sock cfg r, st = Step.start sock cfg (stepNow st) r ∧
          c = ⟨cfg, stepNow st, 0, none⟩)) ∧
      name = c.cfg.streamName ∧ n = c.emissionCount ∧
      d = stepNow st - c.startTime ∧ c.cfg.duration ≤ d := by
  cases st with
  | start sock cfg now r =>
    simp only [execStep, startStream, List.mem_append, List.mem_singleton] at hm
    rcases hm with (hm | hm) | hm
    · rcases stopStream_emits e cfg.streamName with hse | hse <;> rw [hse] at hm <;>
        simp at hm
    · by_cases hb : cfg.burstMode
      · rw [if_pos hb] at hm
        simp at hm
      · rw [if_neg hb] at hm
        obtain ⟨c, hc, hname, hn, hd, hdur⟩ := emitData_complete_mem _ _ _ _ _ _ _ hm
        rw [mget_mset_self] at hc
        obtain rfl : c = ⟨cfg, now, 0, none⟩ := by injection hc with hc'; exact hc'.symm
        exact ⟨⟨cfg, now, 0, none⟩, Or.inr ⟨sock, cfg, r, rfl, rfl⟩, hname, hn, hd,
          hd ▸ hdur⟩
    · simp at hm
  | stop name' =>
    simp only [execStep] at hm
    rcases stopStream_emits e name' with hse | hse <;> rw [hse] at hm <;> simp at hm
  | intervalFire l now r =>
    simp only [execStep] at hm
    by_cases hlive : l ∈ e.liveIntervals
    · rcases option_cases (mget e.closures l) with hc | ⟨c, hc⟩
      · rw [if_pos hlive] at hm
        simp [hc] at hm
      · by_cases hb : c.cfg.burstMode
        · rw [if_pos hlive] at hm
          simp [hc, hb] at hm
        · rw [if_pos hlive] at hm
          have hb' : c.cfg.burstMode = false := by simpa using hb
          simp only [hc, hb', Bool.false_eq_true, if_false] at hm
          obtain ⟨c', hc', hname, hn, hd, hdur⟩ := emitData_complete_mem _ _ _ _ _ _ _ hm
          exact ⟨c', Or.inl ⟨l, hc'⟩, hname, hn, hd, hd ▸ hdur⟩
    · rw [if_neg hlive] at hm
      simp at hm
  | runTask i now r =>
    simp only [execStep] at hm
    rcases option_cases (e.tasks[i]?) with ht | ⟨t, ht⟩
    · simp [ht] at hm
    · simp only [ht] at hm
      by_cases hdue : t.due ≤ now
      · rw [if_pos hdue] at hm
        rcases taskKind_cases t.kind with hk | ⟨dd, hk⟩
        · simp only [hk] at hm
          obtain ⟨c', hc', hname, hn, hd, hdur⟩ := emitData_complete_mem _ _ _ _ _ _ _ hm
          exact ⟨c', Or.inl ⟨t.lineage, hc'⟩, hname, hn, hd, hd ▸ hdur⟩
        · simp only [hk] at hm
          rcases option_cases (mget e.closures t.lineage) with hc | ⟨c, hc⟩ <;>
            simp [hc] at hm
      · rw [if_neg hdue] at hm
        simp at hm

theorem c3_witness :
    ∃ c : Closure,
      ((∃ lin, mget eW10.closures lin = some c) ∨
        (∃ sock cfg r,
          Step.intervalFire 0 5 {} = Step.start sock cfg (stepNow (.intervalFire 0 5 {})) r ∧
          c = ⟨cfg, stepNow (.intervalFire 0 5 {}), 0, none⟩)) ∧
      "books" = c.cfg.streamName ∧ 0 = c.emissionCount ∧
      (5 : ℤ) = stepNow (.intervalFire 0 5 {}) - c.startTime ∧ c.cfg.duration ≤ 5 :=
  c3_completion_content eW10 (.intervalFire 0 5 {}) "books" 0 5 (by decide)

/-- Number of completion events in an emission log. -/
def countCompletes (ems : List Emit) : Nat :=
  (ems.filter fun em => match em.event with | .complete _ _ _ => true | _ => false).length

/-- Number of start commands in a trace. -/
def countStarts (steps : List Step) : Nat :=
  (steps.filter fun st => match st with | .start _ _ _ _ => true | _ => false).length

/-- C3's at-most-once clause, as claimed: completion fires at most once
per stream lifetime; since each start command creates at most one
lifetime, a trace never broadcasts more completion events than it has
start commands. -/
def C3OnceClaim : Prop :=
  ∀ steps : List Step, countCompletes (runTrace steps).2 ≤ countStarts steps

/-- C3 counterexample: one start with `duration = 0` broadcasts
`books-complete` twice — once from the immediate attempt (which runs
before the registry entry is installed, so `stopStream` cannot cancel the
interval), and once from the next interval tick. -/
theorem c3_counterexample : ¬ C3OnceClaim := by
  intro hcl
  exact absurd
    (hcl [.start (.socket 0) { streamName := "books", duration := 0 } 0 {},
      .intervalFire 0 3000 {}])
    (by decide)

/-! ### C4: replacement of a running stream under the same name -/

theorem stopStream_activeKeys_nodup (e : Engine) (name : String)
    (h : (mkeys e.activeStreams).Nodup) :
    (mkeys (stopStream e name).1.activeStreams).Nodup := by
  unfold stopStream
  rcases option_cases (mget e.activeStreams name) with hs | ⟨lin, hs⟩ <;>
    simp [hs, mkeys_mdel_nodup, h]

theorem emitData_activeKeys_nodup (e : Engine) (lin : Nat) (now : ℤ) (r : TickRand)
    (h : (mkeys e.activeStreams).Nodup) :
    (mkeys (emitData e lin now r).1.activeStreams).Nodup := by
  rcases option_cases (mget e.closures lin) with hc | ⟨c, hc⟩
  · simpa [emitData, hc] using h
  · by_cases h1 : c.cfg.duration ≤ now - c.startTime
    · simp only [emitData, hc, if_pos h1]
      exact stopStream_activeKeys_nodup e c.cfg.streamName h
    · by_cases h2 : 0 < c.cfg.errorRate ∧ r.errDraw < c.cfg.errorRate
      · simpa [emitData, hc, if_neg h1, if_pos h2] using h
      · by_cases h3 : 0 < c.cfg.duplicateRate ∧ r.dupDraw < c.cfg.duplicateRate ∧
            c.lastEmittedData.isSome
        · simpa [emitData, hc, if_neg h1, if_neg h2, dif_pos h3] using h
        · simpa [emitData, hc, if_neg h1, if_neg h2, dif_neg h3] using h

theorem execStep_activeKeys_nodup (e : Engine) (st : Step)
    (h : (mkeys e.activeStreams).Nodup) :
    (mkeys (execStep e st).1.activeStreams).Nodup := by
  cases st with
  | start sock cfg now r =>
    simp only [execStep, startStream]
    by_cases hb : cfg.burstMode
    · rw [if_pos hb]
      exact mkeys_mset_nodup _ _ _ (stopStream_activeKeys_nodup e cfg.streamName h)
    · rw [if_neg hb]
      exact mkeys_mset_nodup _ _ _
        (emitData_activeKeys_nodup _ _ _ _ (stopStream_activeKeys_nodup e cfg.streamName h))
  | stop name => exact stopStream_activeKeys_nodup e name h
  | intervalFire l now r =>
    simp only [execStep]
    by_cases hlive : l ∈ e.liveIntervals
    · rcases option_cases (mget e.closures l) with hc | ⟨c, hc⟩
      · simpa [hlive, hc] using h
      · by_cases hb : c.cfg.burstMode
        · simpa [hlive, hc, hb] using h
        · have hb' : c.cfg.burstMode = false := by simpa using hb
          rw [if_pos hlive, hc]
          simp only [hb', Bool.false_eq_true, if_false]
          exact emitData_activeKeys_nodup _ _ _ _ h
    · simpa [hlive] using h
  | runTask i now r =>
    simp only [execStep]
    rcases option_cases (e.tasks[i]?) with ht | ⟨t, ht⟩
    · simpa [ht] using h
    · by_cases hdue : t.due ≤ now
      · rcases taskKind_cases t.kind with hk | ⟨d, hk⟩
        · simp only [ht, hk, if_pos hdue]
          exact emitData_activeKeys_nodup _ _ _ _ h
        · rcases option_cases (mget e.closures t.lineage) with hc | ⟨c, hc⟩ <;>
            simpa [ht, hk, if_pos hdue, hc] using h
      · simpa [ht, hdue] using h

/-- When the attempt's stream name is not registered, `emitData` leaves
`liveIntervals` and `activeStreams` untouched (its duration branch's
`stopStream` call is a no-op). -/
theorem emitData_live_active (e : Engine) (lin : Nat) (now : ℤ) (r : TickRand)
    (c : Closure) (h : mget e.closures lin = some c)
    (hreg : mget e.activeStreams c.cfg.streamName = none) :
    (emitData e lin now r).1.liveIntervals = e.liveIntervals ∧
    (emitData e lin now r).1.activeStreams = e.activeStreams := by
  simp only [emitData, h]
  by_cases h1 : c.cfg.duration ≤ now - c.startTime
  · simp [if_pos h1, stopStream, hreg]
  · by_cases h2 : 0 < c.cfg.errorRate ∧ r.errDraw < c.cfg.errorRate
    · simp [if_neg h1, if_pos h2]
    · by_cases h3 : 0 < c.cfg.duplicateRate ∧ r.dupDraw < c.cfg.duplicateRate ∧
          c.lastEmittedData.isSome
      · simp [if_neg h1, if_neg h2, dif_pos h3]
      · simp [if_neg h1, if_neg h2, dif_neg h3]

/-- C4 (amended): starting under a name that is already registered runs
the same `stopStream` code path first: the prior instance's interval
handle is dead before the new instance is installed, and the registry
binds the name to the new lineage; moreover the `activeStreams` registry
of every reachable state binds each name at most once.  The unamended
claim's "at most one scheduler ticking per name" is false on the code
under burst mode, where already-scheduled staggered attempts of the old
lineage survive replacement (see `c4_counterexample`). -/
theorem c4_registry_exclusive :
    (∀ (e : Engine) (sock : Sink) (cfg : StreamCfg) (now : ℤ) (r : TickRand) (old : Nat),
      mget e.activeStreams cfg.streamName = some old → old < e.nextLineage →
      old ∉ (startStream e sock cfg now r).1.liveIntervals ∧
      mget (startStream e sock cfg now r).1.activeStreams cfg.streamName =
        some e.nextLineage) ∧
    (∀ steps : List Step, (mkeys (runTrace steps).1.activeStreams).Nodup) := by
  constructor
  · intro e sock cfg now r old hreg hlt
    have hne : old ≠ e.nextLineage := Nat.ne_of_lt hlt
    simp only [startStream, stopStream, hreg]
    by_cases hb : cfg.burstMode
    · rw [if_pos hb]
      refine ⟨?_, mget_mset_self _ _ _⟩
      simp [List.mem_filter, hne]
    · rw [if_neg hb]
      constructor
      · rw [(emitData_live_active _ _ _ _ _ (mget_mset_self _ _ _)
          (by simpa using mget_mdel_self e.activeStreams cfg.streamName)).1]
        simp [List.mem_filter, hne]
      · rw [mget_mset_self]
  · intro steps
    have main : ∀ (ss : List Step) (e : Engine), (mkeys e.activeStreams).Nodup →
        (mkeys (execTrace e ss).1.activeStreams).Nodup := by
      intro ss
      induction ss with
      | nil => intro e h; simpa [execTrace] using h
      | cons st rest ih =>
        intro e h
        simp only [execTrace]
        exact ih _ (execStep_activeKeys_nodup e st h)
    exact main steps Engine.init (by simp [Engine.init, mkeys])

theorem c4_witness :
    (0 ∉ (startStream eW1 (.socket 0) { streamName := "books" } 100 {}).1.liveIntervals ∧
      mget (startStream eW1 (.socket 0) { streamName := "books" } 100 {}).1.activeStreams
        "books" = some eW1.nextLineage) ∧
    (mkeys (runTrace [.start (.socket 0) { streamName := "books" } 0 {}]).1.activeStreams).Nodup :=
  ⟨c4_registry_exclusive.1 eW1 (.socket 0) { streamName := "books" } 100 {} 0 rfl
      (by decide),
   c4_registry_exclusive.2 [.start (.socket 0) { streamName := "books" } 0 {}]⟩

/-- The task is a pending emission attempt (burst stagger), not a
delayed broadcast. -/
def isAttempt (t : Task) : Bool :=
  match t.kind with | .attempt => true | _ => false

/-- The lineages that can still produce emission attempts for `name`: a
live interval timer, or a pending staggered attempt task. -/
def tickingLineages (e : Engine) (name : String) : List Nat :=
  ((e.liveIntervals ++ (e.tasks.filter isAttempt).map Task.lineage).dedup).filter
    fun l =>
      match mget e.closures l with
      | some c => c.cfg.streamName == name
      | none => false

/-- C4 as claimed: at every instant at most one scheduler can tick per
name. -/
def C4OneSchedulerClaim : Prop :=
  ∀ (steps : List Step) (name : String),
    (tickingLineages (runTrace steps).1 name).length ≤ 1

/-- C4 counterexample: under burst mode, a burst tick schedules staggered
attempts as separate timeouts; restarting the stream clears only the
interval, so the old lineage's pending attempts survive next to the new
lineage's interval — two schedulers able to tick under `books`. -/
theorem c4_counterexample : ¬ C4OneSchedulerClaim := by
  intro hcl
  exact absurd (hcl
    [.start (.socket 0)
        { streamName := "books", burstMode := true, burstInterval := 1000 } 0 {},
     .intervalFire 0 1000 {},
     .start (.socket 0)
        { streamName := "books", burstMode := true, burstInterval := 1000 } 1050 {}]
    "books") (by decide)

/-! ### C6: errorRate = 100 means error ticks only -/

/-- The occurrence's error draw (`Math.random() * 100`) lies in `[0, 100)`,
as real draws do.  A stop command draws nothing. -/
def stepDrawOk : Step → Prop
  | .start _ _ _ r => 0 ≤ r.errDraw ∧ r.errDraw < 100
  | .stop _ => True
  | .intervalFire _ _ r => 0 ≤ r.errDraw ∧ r.errDraw < 100
  | .runTask _ _ r => 0 ≤ r.errDraw ∧ r.errDraw < 100

instance : (st : Step) → Decidable (stepDrawOk st)
  | .start _ _ _ r => inferInstanceAs (Decidable (0 ≤ r.errDraw ∧ r.errDraw < 100))
  | .stop _ => inferInstanceAs (Decidable True)
  | .intervalFire _ _ r => inferInstanceAs (Decidable (0 ≤ r.errDraw ∧ r.errDraw < 100))
  | .runTask _ _ r => inferInstanceAs (Decidable (0 ≤ r.errDraw ∧ r.errDraw < 100))

theorem mdel_subset {κ α : Type} [DecidableEq κ] {m : List (κ × α)} {k : κ}
    {p : κ × α} (h : p ∈ mdel m k) : p ∈ m := by
  induction m with
  | nil => simp [mdel] at h
  | cons q rest ih =>
    obtain ⟨k0, v0⟩ := q
    by_cases h0 : k0 = k
    · simp only [mdel, if_pos h0] at h
      exact List.mem_cons_of_mem _ (ih h)
    · simp only [mdel, if_neg h0, List.mem_cons] at h
      rcases h with h | h
      · simp [h]
      · exact List.mem_cons_of_mem _ (ih h)

theorem getElemOpt_mem {α : Type} {l : List α} {i : Nat} {a : α} (h : l[i]? = some a) :
    a ∈ l := by
  induction l generalizing i with
  | nil => simp at h
  | cons x xs ih =>
    cases i with
    | zero =>
      simp at h
      simp [h]
    | succ j =>
      simp only [List.getElem?_cons_succ] at h
      exact List.mem_cons_of_mem _ (ih h)

/-- The invariant behind C6, over the closure map, the pending tasks and
the lineage mint: a stream with `errorRate = 100` has never emitted
(count 0, no stored payload) and never has a fresh broadcast pending;
task and closure lineages are below the mint. -/
def errFreeOn (cls : List (Nat × Closure)) (tks : List Task) (nx : Nat) : Prop :=
  (∀ lin c, mget cls lin = some c → c.cfg.errorRate = 100 →
    c.emissionCount = 0 ∧ c.lastEmittedData = none) ∧
  (∀ t ∈ tks, t.lineage < nx) ∧
  (∀ p ∈ cls, p.1 < nx) ∧
  (∀ t ∈ tks, ∀ c, mget cls t.lineage = some c → c.cfg.errorRate = 100 →
    t.kind = TaskKind.attempt)

def errFree (e : Engine) : Prop := errFreeOn e.closures e.tasks e.nextLineage

theorem errFree_emitData (e : Engine) (lin : Nat) (now : ℤ) (r : TickRand)
    (hr : r.errDraw < 100) (h : errFree e) : errFree (emitData e lin now r).1 := by
  rcases option_cases (mget e.closures lin) with hc | ⟨c, hc⟩
  · simpa [emitData, hc] using h
  · obtain ⟨H1, H2, H3, H4⟩ := h
    by_cases h1 : c.cfg.duration ≤ now - c.startTime
    · simp only [emitData, hc, if_pos h1]
      unfold errFree errFreeOn
      rw [stopStream_closures, stopStream_tasks, stopStream_nextLineage]
      exact ⟨H1, H2, H3, H4⟩
    · by_cases h2 : 0 < c.cfg.errorRate ∧ r.errDraw < c.cfg.errorRate
      · simpa [emitData, hc, if_neg h1, if_pos h2] using ⟨H1, H2, H3, H4⟩
      · have h100 : c.cfg.errorRate ≠ 100 := by
          intro hh
          exact h2 ⟨by rw [hh]; norm_num, by rw [hh]; exact hr⟩
        by_cases h3 : 0 < c.cfg.duplicateRate ∧ r.dupDraw < c.cfg.duplicateRate ∧
            c.lastEmittedData.isSome
        · simp only [emitData, hc, if_neg h1, if_neg h2, dif_pos h3]
          refine ⟨?_, H2, ?_, ?_⟩
          · intro lin' c' hg hrate
            by_cases hl : lin' = lin
            · subst hl
              rw [mget_mset_self] at hg
              injection hg with hg
              subst hg
              exact absurd hrate h100
            · rw [mget_mset_ne _ _ _ _ (Ne.symm hl)] at hg
              exact H1 _ _ hg hrate
          · intro p hp
            rcases List.mem_cons.mp hp with hp | hp
            · rw [hp]
              exact H3 (lin, c) (mget_mem hc)
            · exact H3 _ (mdel_subset hp)
          · intro t ht c' hg hrate
            by_cases hl : t.lineage = lin
            · rw [hl, mget_mset_self] at hg
              injection hg with hg
              subst hg
              exact absurd hrate h100
            · rw [mget_mset_ne _ _ _ _ (Ne.symm hl)] at hg
              exact H4 t ht c' hg hrate
        · simp only [emitData, hc, if_neg h1, if_neg h2, dif_neg h3]
          refine ⟨?_, ?_, ?_, ?_⟩
          · intro lin' c' hg hrate
            by_cases hl : lin' = lin
            · subst hl
              rw [mget_mset_self] at hg
              injection hg with hg
              subst hg
              exact absurd hrate h100
            · rw [mget_mset_ne _ _ _ _ (Ne.symm hl)] at hg
              exact H1 _ _ hg hrate
          · intro t ht
            rcases List.mem_append.mp ht with ht | ht
            · exact H2 t ht
            · rcases List.mem_singleton.mp ht with rfl
              exact H3 _ (mget_mem hc)
          · intro p hp
            rcases List.mem_cons.mp hp with hp | hp
            · rw [hp]
              exact H3 (lin, c) (mget_mem hc)
            · exact H3 _ (mdel_subset hp)
          · intro t ht c' hg hrate
            by_cases hl : t.lineage = lin
            · rw [hl, mget_mset_self] at hg
              injection hg with hg
              subst hg
              exact absurd hrate h100
            · rw [mget_mset_ne _ _ _ _ (Ne.symm hl)] at hg
              rcases List.mem_append.mp ht with ht | ht
              · exact H4 t ht c' hg hrate
              · rcases List.mem_singleton.mp ht with rfl
                exact absurd rfl hl

theorem errFree_stopStream (e : Engine) (name : String) (h : errFree e) :
    errFree (stopStream e name).1 := by
  unfold errFree errFreeOn
  rw [stopStream_closures, stopStream_tasks, stopStream_nextLineage]
  exact h

/-- Installing a fresh closure (count 0, no payload, fresh lineage)
preserves the invariant and bumps the mint. -/
theorem errFree_install (cls : List (Nat × Closure)) (tks : List Task) (nx : Nat)
    (cfg : StreamCfg) (now : ℤ) (h : errFreeOn cls tks nx) :
    errFreeOn (mset cls nx ⟨cfg, now, 0, none⟩) tks (nx + 1) := by
  obtain ⟨H1, H2, H3, H4⟩ := h
  refine ⟨?_, ?_, ?_, ?_⟩
  · intro lin' c' hg hrate
    by_cases hl : lin' = nx
    · subst hl
      rw [mget_mset_self] at hg
      injection hg with hg
      subst hg
      exact ⟨rfl, rfl⟩
    · rw [mget_mset_ne _ _ _ _ (Ne.symm hl)] at hg
      exact H1 _ _ hg hrate
  · intro t ht
    exact Nat.lt_succ_of_lt (H2 t ht)
  · intro p hp
    rcases List.mem_cons.mp hp with hp | hp
    · rw [hp]
      exact Nat.lt_succ_self nx
    · exact Nat.lt_succ_of_lt (H3 _ (mdel_subset hp))
  · intro t ht c' hg hrate
    by_cases hl : t.lineage = nx
    · exact absurd (hl ▸ H2 t ht) (lt_irrefl nx)
    · rw [mget_mset_ne _ _ _ _ (Ne.symm hl)] at hg
      exact H4 t ht c' hg hrate

theorem errFree_step (e : Engine) (st : Step) (hd : stepDrawOk st) (h : errFree e) :
    errFree (execStep e st).1 := by
  cases st with
  | start sock cfg now r =>
    have h3 : errFree
        { nextLineage := (stopStream e cfg.streamName).1.nextLineage + 1
          activeStreams := (stopStream e cfg.streamName).1.activeStreams
          streamConfigs := mset (stopStream e cfg.streamName).1.streamConfigs
            cfg.streamName cfg
          closures := mset (stopStream e cfg.streamName).1.closures
            (stopStream e cfg.streamName).1.nextLineage ⟨cfg, now, 0, none⟩
          liveIntervals := (stopStream e cfg.streamName).1.nextLineage ::
            (stopStream e cfg.streamName).1.liveIntervals
          tasks := (stopStream e cfg.streamName).1.tasks } := by
      unfold errFree
      exact errFree_install _ _ _ cfg now (errFree_stopStream e cfg.streamName h)
    simp only [execStep, startStream]
    by_cases hb : cfg.burstMode
    · rw [if_pos hb]
      exact h3
    · rw [if_neg hb]
      exact errFree_emitData _ _ now r hd.2 h3
  | stop name => exact errFree_stopStream e name h
  | intervalFire l now r =>
    simp only [execStep]
    by_cases hlive : l ∈ e.liveIntervals
    · rcases option_cases (mget e.closures l) with hc | ⟨c, hc⟩
      · simpa [hlive, hc] using h
      · by_cases hb : c.cfg.burstMode
        · rw [if_pos hlive]
          simp only [hc, hb, if_pos rfl]
          obtain ⟨H1, H2, H3, H4⟩ := h
          refine ⟨H1, ?_, H3, ?_⟩
          · intro t ht
            rcases List.mem_append.mp ht with ht | ht
            · exact H2 t ht
            · rcases List.mem_map.mp ht with ⟨j, _, rfl⟩
              exact H3 _ (mget_mem hc)
          · intro t ht c' hg hrate
            rcases List.mem_append.mp ht with ht | ht
            · exact H4 t ht c' hg hrate
            · rcases List.mem_map.mp ht with ⟨j, _, rfl⟩
              rfl
        · have hb' : c.cfg.burstMode = false := by simpa using hb
          rw [if_pos hlive]
          simp only [hc, hb', Bool.false_eq_true, if_false]
          exact errFree_emitData e l now r hd.2 h
    · simpa [hlive] using h
  | runTask i now r =>
    simp only [execStep]
    rcases option_cases (e.tasks[i]?) with ht | ⟨t, ht⟩
    · simpa [ht] using h
    · have htm : t ∈ e.tasks := getElemOpt_mem ht
      have he' : errFree { e with tasks := e.tasks.eraseIdx i } := by
        obtain ⟨H1, H2, H3, H4⟩ := h
        refine ⟨H1, ?_, H3, ?_⟩
        · intro t' ht'
          exact H2 t' (List.eraseIdx_subset _ _ ht')
        · intro t' ht' c' hg hrate
          exact H4 t' (List.eraseIdx_subset _ _ ht') c' hg hrate
      by_cases hdue : t.due ≤ now
      · rcases taskKind_cases t.kind with hk | ⟨d, hk⟩
        · simp only [ht, hk, if_pos hdue]
          exact errFree_emitData _ _ now r hd.2 he'
        · rcases option_cases (mget e.closures t.lineage) with hc | ⟨c, hc⟩
          · simpa [ht, hk, if_pos hdue, hc] using he'
          · have h100 : c.cfg.errorRate ≠ 100 := by
              intro hh
              have := h.2.2.2 t htm c hc hh
              rw [hk] at this
              exact TaskKind.noConfusion this
            simp only [ht, hk, if_pos hdue, hc]
            obtain ⟨H1, H2, H3, H4⟩ := he'
            refine ⟨?_, H2, ?_, ?_⟩
            · intro lin' c' hg hrate
              by_cases hl : lin' = t.lineage
              · subst hl
                rw [mget_mset_self] at hg
                injection hg with hg
                subst hg
                exact absurd hrate h100
              · rw [mget_mset_ne _ _ _ _ (Ne.symm hl)] at hg
                exact H1 _ _ hg hrate
            · intro p hp
              rcases List.mem_cons.mp hp with hp | hp
              · rw [hp]
                exact H3 (t.lineage, c) (mget_mem hc)
              · exact H3 _ (mdel_subset hp)
            · intro t' ht' c' hg hrate
              by_cases hl : t'.lineage = t.lineage
              · rw [hl, mget_mset_self] at hg
                injection hg with hg
                subst hg
                exact absurd hrate h100
              · rw [mget_mset_ne _ _ _ _ (Ne.symm hl)] at hg
                exact H4 t' ht' c' hg hrate
      · simpa [ht, hdue] using h

/-- C6: for a stream started with `errorRate = 100`, with every error
draw uniform in `[0, 100)`, no fresh emission and no duplicate emission
ever occurs (its `emissionCount` stays 0 and no payload is ever stored);
and each of its attempts before the duration elapses takes the error
branch. -/
theorem c6_errorRate100_never_emits :
    (∀ steps : List Step, (∀ st ∈ steps, stepDrawOk st) →
      ∀ (lin : Nat) (c : Closure), mget (runTrace steps).1.closures lin = some c →
        c.cfg.errorRate = 100 → c.emissionCount = 0 ∧ c.lastEmittedData = none) ∧
    (∀ (c : Closure) (now : ℤ) (r : TickRand), c.cfg.errorRate = 100 →
      r.errDraw < 100 → ¬c.cfg.duration ≤ now - c.startTime →
      tickBranch c now r = .error) := by
  constructor
  · have main : ∀ (ss : List Step) (e : Engine), errFree e → (∀ st ∈ ss, stepDrawOk st) →
        errFree (execTrace e ss).1 := by
      intro ss
      induction ss with
      | nil =>
        intro e h _
        simpa [execTrace] using h
      | cons st rest ih =>
        intro e h hds
        simp only [execTrace]
        exact ih _ (errFree_step e st (hds st (List.mem_cons_self st rest)) h)
          fun s hs => hds s (List.mem_cons_of_mem st hs)
    intro steps hds lin c hg hrate
    have hinit : errFree Engine.init := by
      refine ⟨fun lin c hg => ?_, fun t ht => ?_, fun p hp => ?_, fun t ht => ?_⟩
      · simp [Engine.init, mget] at hg
      · simp [Engine.init] at ht
      · simp [Engine.init] at hp
      · simp [Engine.init] at ht
    exact (main steps Engine.init hinit hds).1 lin c hg hrate
  · intro c now r h100 hlt hdur
    have hcond : 0 < c.cfg.errorRate ∧ r.errDraw < c.cfg.errorRate := by
      rw [h100]
      exact ⟨by norm_num, hlt⟩
    unfold tickBranch
    rw [if_neg hdur, if_pos hcond]

/-- Trace for the C6 witness: a 100%-error stream started and ticked
once, every draw 50. -/
def steps6W : List Step :=
  [.start (.socket 0) { streamName := "books", errorRate := 100 } 0 { errDraw := 50 },
   .intervalFire 0 3000 { errDraw := 50 }]

/-- Closure of the C6 witness stream after the trace. -/
def cW6 : Closure := ⟨{ streamName := "books", errorRate := 100 }, 0, 0, none⟩

theorem c6_witness :
    (cW6.emissionCount = 0 ∧ cW6.lastEmittedData = none) ∧
    tickBranch cW6 1000 { errDraw := 50 } = .error :=
  ⟨c6_errorRate100_never_emits.1 steps6W (by decide) 0 cW6 (by decide) (by decide),
   c6_errorRate100_never_emits.2 cW6 1000 { errDraw := 50 } (by decide) (by decide)
     (by decide)⟩

/-! ### C7: duplicate replay and the life of lastEmittedPayload -/

/-- One attempt changes a stream's `lastEmittedData` only by taking the
fresh branch, and then stores exactly the generated payload. -/
theorem emitData_last (e : Engine) (lin' : Nat) (now : ℤ) (r : TickRand) (lin : Nat) :
    closureLast (emitData e lin' now r).1.closures lin = closureLast e.closures lin ∨
    ∃ c, mget e.closures lin' = some c ∧ lin = lin' ∧ tickBranch c now r = .fresh ∧
      closureLast (emitData e lin' now r).1.closures lin =
        some (genPayload c.cfg.streamName c.emissionCount now r.gen) := by
  rcases option_cases (mget e.closures lin') with hc | ⟨c, hc⟩
  · left
    simp [emitData, hc]
  · by_cases h1 : c.cfg.duration ≤ now - c.startTime
    · left
      simp only [emitData, hc, if_pos h1]
      simp [closureLast, stopStream_closures]
    · by_cases h2 : 0 < c.cfg.errorRate ∧ r.errDraw < c.cfg.errorRate
      · left
        simp [emitData, hc, if_neg h1, if_pos h2]
      · by_cases h3 : 0 < c.cfg.duplicateRate ∧ r.dupDraw < c.cfg.duplicateRate ∧
            c.lastEmittedData.isSome
        · left
          simp only [emitData, hc, if_neg h1, if_neg h2, dif_pos h3]
          by_cases hl : lin = lin'
          · subst hl
            simp [closureLast, mget_mset_self, hc]
          · simp [closureLast, mget_mset_ne _ _ _ _ (Ne.symm hl)]
        · by_cases hl : lin = lin'
          · subst hl
            right
            have hbr : tickBranch c now r = .fresh := by simp [tickBranch, h1, h2, h3]
            refine ⟨c, hc, rfl, hbr, ?_⟩
            simp only [emitData, hc, if_neg h1, if_neg h2, dif_neg h3]
            simp [closureLast, mget_mset_self]
          · left
            simp only [emitData, hc, if_neg h1, if_neg h2, dif_neg h3]
            simp [closureLast, mget_mset_ne _ _ _ _ (Ne.symm hl)]

/-- C7: (a) a duplicate-injection attempt broadcasts exactly the stored
`lastEmittedPayload`, unchanged, increments `emissionCount` by 1 and
leaves everything else (the stored payload included) untouched; (b) a
stream's `lastEmittedData` starts absent and is only ever set by a
fresh-emission branch, to the payload that branch generates — so it is
absent until the first fresh emission. -/
theorem c7_duplicate_replay :
    (∀ (e : Engine) (lin : Nat) (now : ℤ) (r : TickRand) (c : Closure) (d : Payload),
      mget e.closures lin = some c → c.lastEmittedData = some d →
      tickBranch c now r = .dup →
      emitData e lin now r =
        ({ e with
            closures := mset e.closures lin { c with emissionCount := c.emissionCount + 1 } },
         [⟨.broadcast, .payload c.cfg.streamName d⟩])) ∧
    (∀ (e : Engine) (st : Step) (lin : Nat), WfLineages e →
      closureLast (execStep e st).1.closures lin ≠ closureLast e.closures lin →
      ∃ (c : Closure) (now : ℤ) (r : TickRand),
        tickBranch c now r = .fresh ∧
        closureLast (execStep e st).1.closures lin =
          some (genPayload c.cfg.streamName c.emissionCount now r.gen)) := by
  constructor
  · intro e lin now r c d hc hlast hbr
    by_cases h1 : c.cfg.duration ≤ now - c.startTime
    · rw [show tickBranch c now r = .complete by simp [tickBranch, h1]] at hbr
      exact absurd hbr (by decide)
    · by_cases h2 : 0 < c.cfg.errorRate ∧ r.errDraw < c.cfg.errorRate
      · rw [show tickBranch c now r = .error by simp [tickBranch, h1, h2]] at hbr
        exact absurd hbr (by decide)
      · by_cases h3 : 0 < c.cfg.duplicateRate ∧ r.dupDraw < c.cfg.duplicateRate ∧
            c.lastEmittedData.isSome
        · simp only [emitData, hc, if_neg h1, if_neg h2, dif_pos h3]
          simp [hlast]
        · rw [show tickBranch c now r = .fresh by simp [tickBranch, h1, h2, h3]] at hbr
          exact absurd hbr (by decide)
  · intro e st lin hwf hne
    have hnew : mget e.closures e.nextLineage = none := by
      rcases hn : mget e.closures e.nextLineage with _ | c
      · rfl
      · exact absurd (hwf _ (mget_mem hn)) (lt_irrefl _)
    cases st with
    | start sock cfg now r =>
      have h3eq : ∀ lin' : Nat,
          closureLast (mset (stopStream e cfg.streamName).1.closures
            (stopStream e cfg.streamName).1.nextLineage ⟨cfg, now, 0, none⟩) lin' =
          closureLast e.closures lin' := by
        intro lin'
        rw [stopStream_closures, stopStream_nextLineage]
        by_cases hl : lin' = e.nextLineage
        · subst hl
          simp [closureLast, mget_mset_self, hnew]
        · simp [closureLast, mget_mset_ne _ _ _ _ (Ne.symm hl)]
      simp only [execStep, startStream] at hne ⊢
      by_cases hb : cfg.burstMode
      · rw [if_pos hb] at hne
        exact absurd (h3eq lin) hne
      · rw [if_neg hb] at hne ⊢
        rcases emitData_last _ (stopStream e cfg.streamName).1.nextLineage now r lin with
          heq | ⟨c, hcm, hlin, hbr, hval⟩
        · exact absurd (heq.trans (h3eq lin)) hne
        · exact ⟨c, now, r, hbr, hval⟩
    | stop name =>
      exact absurd (by simp [execStep, closureLast, stopStream_closures]) hne
    | intervalFire l now r =>
      simp only [execStep] at hne ⊢
      by_cases hlive : l ∈ e.liveIntervals
      · rcases option_cases (mget e.closures l) with hc | ⟨c, hc⟩
        · rw [if_pos hlive] at hne
          simp only [hc] at hne
          exact absurd rfl hne
        · by_cases hb : c.cfg.burstMode
          · rw [if_pos hlive] at hne
            simp only [hc, hb, if_pos rfl] at hne
            exact absurd rfl hne
          · have hb' : c.cfg.burstMode = false := by simpa using hb
            rw [if_pos hlive] at hne ⊢
            simp only [hc, hb', Bool.false_eq_true, if_false] at hne ⊢
            rcases emitData_last e l now r lin with heq | ⟨c', hcm, hlin, hbr, hval⟩
            · exact absurd heq hne
            · exact ⟨c', now, r, hbr, hval⟩
      · rw [if_neg hlive] at hne
        exact absurd rfl hne
    | runTask i now r =>
      simp only [execStep] at hne ⊢
      rcases option_cases (e.tasks[i]?) with ht | ⟨t, ht⟩
      · simp only [ht] at hne
        exact absurd rfl hne
      · simp only [ht] at hne ⊢
        by_cases hdue : t.due ≤ now
        · rw [if_pos hdue] at hne ⊢
          rcases taskKind_cases t.kind with hk | ⟨d, hk⟩
          · simp only [hk] at hne ⊢
            rcases emitData_last { e with tasks := e.tasks.eraseIdx i } t.lineage now r lin
              with heq | ⟨c', hcm, hlin, hbr, hval⟩
            · exact absurd heq hne
            · exact ⟨c', now, r, hbr, hval⟩
          · simp only [hk] at hne
            rcases option_cases (mget e.closures t.lineage) with hc | ⟨c, hc⟩
            · simp only [hc] at hne
              exact absurd rfl hne
            · simp only [hc] at hne
              by_cases hl : lin = t.lineage
              · subst hl
                exact absurd (by simp [closureLast, mget_mset_self, hc]) hne
              · exact absurd
                  (by simp [closureLast, mget_mset_ne _ _ _ _ (Ne.symm hl)]) hne
        · rw [if_neg hdue] at hne
          exact absurd rfl hne

/-- Payload stored for the C7 witness stream. -/
def pW7 : Payload := .book ⟨1000, "t", "a", "i", 2000, false, 0, "Fiction"⟩

/-- Closure of the C7 witness stream: `duplicateRate = 100` with a stored
payload. -/
def cW7 : Closure := ⟨{ streamName := "books", duplicateRate := 100 }, 0, 0, some pW7⟩

/-- Engine for the C7 witness. -/
def eW7 : Engine :=
  { nextLineage := 1, activeStreams := [("books", 0)],
    streamConfigs := [("books", { streamName := "books", duplicateRate := 100 })],
    closures := [(0, cW7)], liveIntervals := [0], tasks := [] }

theorem c7_witness :
    (emitData eW7 0 500 { dupDraw := 50 } =
      ({ eW7 with
          closures := mset eW7.closures 0 { cW7 with emissionCount := cW7.emissionCount + 1 } },
       [⟨.broadcast, .payload cW7.cfg.streamName pW7⟩])) ∧
    (∃ (c : Closure) (now : ℤ) (r : TickRand),
      tickBranch c now r = .fresh ∧
      closureLast
          (execStep Engine.init (.start (.socket 0) { streamName := "books" } 0 {})).1.closures
          0 =
        some (genPayload c.cfg.streamName c.emissionCount now r.gen)) :=
  ⟨c7_duplicate_replay.1 eW7 0 500 { dupDraw := 50 } cW7 pW7 rfl rfl (by decide),
   c7_duplicate_replay.2 Engine.init (.start (.socket 0) { streamName := "books" } 0 {}) 0
     (by decide) (by decide)⟩

end RxSrv
